import Mathlib

/-!
Shallow embedding of the merge/clean/dedup pipeline of the Data-Collector
repository (files `agents/utils.py`, `agents/config.py`,
`agents/merge_and_clean.py`).  Python strings are modelled as Lean `String`
values, with the Python string primitives (`strip`, `lower`, `split`,
`join`, regex operations restricted to the concrete patterns used by the
source) implemented over `String.data`.  Python dicts holding row data are
modelled by the fixed record type `Rec` whose fields are exactly the output
columns of `config.OUTPUT_COLUMNS`; a missing key is the empty string,
matching the `row.get(k, "")`/`row.get(k) or ""` accesses in the source.
The ordered dict `merged` of `main` is modelled as an insertion-ordered
association list.
-/

namespace DataCollector

/-- Python `str.strip()` whitespace class, restricted to the ASCII
whitespace characters (space, tab, newline, carriage return, vertical tab,
form feed). -/
def isPySpace (c : Char) : Bool :=
  c = ' ' || c = '\t' || c = '\n' || c = '\r' || c = '\x0b' || c = '\x0c'

/-- Characters of Python `str.strip()` applied to a character list:
drop whitespace from the front, then from the back. -/
def stripChars (l : List Char) : List Char :=
  ((l.dropWhile isPySpace).reverse.dropWhile isPySpace).reverse

/-- Python `str.strip()`. -/
def pyStrip (s : String) : String :=
  ⟨stripChars s.data⟩

/-- Python `str.lower()`, on the ASCII range (`Char.toLower` lowercases
exactly the ASCII letters). -/
def pyLower (s : String) : String :=
  ⟨s.data.map Char.toLower⟩

/-- Split a character list at every `';'`, keeping empty pieces:
Python `value.split(";")`. -/
def splitSemiChars : List Char → List (List Char)
  | [] => [[]]
  | c :: rest =>
    match splitSemiChars rest with
    | [] => [[]]
    | p :: ps => if c = ';' then [] :: p :: ps else (c :: p) :: ps

/-- Python `value.split(";")`. -/
def pySplitSemi (s : String) : List String :=
  (splitSemiChars s.data).map (fun l => ⟨l⟩)

/-- Python `";".join(parts)`. -/
def joinSemi : List String → String
  | [] => ""
  | [p] => p
  | p :: rest => p ++ ";" ++ joinSemi rest

/-- `utils.EMAIL_RE`: full match of `^[^@\s]+@[^@\s]+\.[^@\s]+$`.
The character class `[^@\s]` (which contains `'.'`) is `emailChar`. -/
def emailChar (c : Char) : Bool :=
  c ≠ '@' && !(isPySpace c)

/-- `EMAIL_RE.match` on a whole string: the part before the first `'@'`
must be a nonempty run of `emailChar`s, and the part after it a nonempty
run of `emailChar`s containing a `'.'` that is neither its first nor its
last character (the regex tail `[^@\s]+\.[^@\s]+`). -/
def emailMatch (s : String) : Bool :=
  match s.data.span (fun c => c ≠ '@') with
  | (x, '@' :: y) =>
    !x.isEmpty && x.all emailChar && y.all emailChar && ((y.drop 1).dropLast.contains '.')
  | _ => false

/-- `utils.validate_email`: empty input is returned as is, otherwise the
input is stripped and returned when it matches `EMAIL_RE`, else `""`. -/
def validate_email (value : String) : String :=
  if value = "" then ""
  else if emailMatch (pyStrip value) then pyStrip value else ""

/-- The lowercase-alphanumeric class left untouched by
`utils.NON_ALNUM_RE = [^a-z0-9]+` (applied after `.lower()`). -/
def isLowerAlnum (c : Char) : Bool :=
  ('a' ≤ c && c ≤ 'z') || ('0' ≤ c && c ≤ '9')

/-- `NON_ALNUM_RE.sub(" ", l)`: replace every maximal run of
non-`[a-z0-9]` characters by a single space.  The flag records whether the
previous character belonged to such a run. -/
def collapseGo (inRun : Bool) : List Char → List Char
  | [] => []
  | c :: rest =>
    if isLowerAlnum c then c :: collapseGo false rest
    else if inRun then collapseGo true rest
    else ' ' :: collapseGo true rest

/-- Python `str.split()` (no argument): split on runs of whitespace,
discarding empty pieces.  `cur` accumulates the current word. -/
def wordsGo (cur : List Char) : List Char → List (List Char)
  | [] => if cur.isEmpty then [] else [cur]
  | c :: rest =>
    if isPySpace c then
      if cur.isEmpty then wordsGo [] rest else cur :: wordsGo [] rest
    else wordsGo (cur ++ [c]) rest

/-- Python `" ".join(words)` over character lists. -/
def joinSpace : List (List Char) → List Char
  | [] => []
  | [w] => w
  | w :: rest => w ++ ' ' :: joinSpace rest

/-- `utils.normalize_company_name`. -/
def normalize_company_name (value : String) : String :=
  if value = "" then ""
  else
    let lowered := (stripChars value.data).map Char.toLower
    let normalized := collapseGo false lowered
    ⟨joinSpace (wordsGo [] normalized)⟩

/-- `utils.normalize_phone`.  `re.sub(r"\D+", "", value)` keeps exactly
the decimal digits. -/
def normalize_phone (value : String) : String :=
  if value = "" then ""
  else
    let digits := value.data.filter Char.isDigit
    if digits.isEmpty then ""
    else
      let digits2 :=
        if digits.take 5 = ['0', '0', '9', '7', '1'] then ['9', '7', '1'] ++ digits.drop 5
        else digits
      if digits2.take 3 = ['9', '7', '1'] then ⟨'+' :: digits2⟩ else ⟨'+' :: digits2⟩

/-- The inner loop of `utils.merge_notes` for one string argument:
`for item in value.split(";"): item = item.strip(); if item and item not in
parts: parts.append(item)`. -/
def addNoteItems (parts : List String) : List String → List String
  | [] => parts
  | it :: rest =>
    if pyStrip it ≠ "" ∧ pyStrip it ∉ parts then addNoteItems (parts ++ [pyStrip it]) rest
    else addNoteItems parts rest

/-- One `value` iteration of `utils.merge_notes`
(`if not value: continue`, string case). -/
def noteParts (value : String) (parts : List String) : List String :=
  if value = "" then parts else addNoteItems parts (pySplitSemi value)

/-- `utils.merge_notes` at the two-string-argument uses that occur in
`merge_and_clean.py` (lines 74 and 120). -/
def merge_notes (a b : String) : String :=
  joinSemi (noteParts b (noteParts a []))

/-- The semicolon-separated tag list carried by a notes string: the
stripped, nonempty components of `s.split(";")`. -/
def notesTags (s : String) : List String :=
  ((pySplitSemi s).map pyStrip).filter (fun t => t ≠ "")

/-- `config.SOURCE_DUBAI_CHAMBER`, the priority source. -/
def SOURCE_DUBAI_CHAMBER : String := "dubai_chamber"

/-- One row of the pipeline: a Python dict restricted to the
`config.OUTPUT_COLUMNS` keys, a missing or `None` value being `""`. -/
structure Rec where
  company_name : String := ""
  business_activity : String := ""
  phone : String := ""
  email : String := ""
  source : String := ""
  emirate : String := ""
  activity_code : String := ""
  source_url : String := ""
  last_seen_utc : String := ""
  notes : String := ""
deriving DecidableEq, Repr, Inhabited

/-- `merge_and_clean.best_activity`. -/
def best_activity (existing new new_source : String) : String :=
  if existing = "" then new
  else if new_source = SOURCE_DUBAI_CHAMBER then
    (if new = "" then existing else new)
  else if new ≠ "" ∧ existing.length < new.length then new
  else existing

/-- `merge_and_clean.merge_rows`: merge `incoming` into the surviving
entity `existing` and return the survivor.  `x or y` on strings is
`if x = "" then y else x`; `incoming_last > existing_last` is Python
lexicographic string comparison, i.e. `String.lt`. -/
def merge_rows (existing incoming : Rec) : Rec :=
  let existing_source := existing.source
  let incoming_source := incoming.source
  let phone :=
    if existing.phone = "" then incoming.phone
    else if existing_source ≠ SOURCE_DUBAI_CHAMBER ∧ incoming_source = SOURCE_DUBAI_CHAMBER then
      (if incoming.phone = "" then existing.phone else incoming.phone)
    else existing.phone
  let email :=
    if existing.email = "" then incoming.email
    else if existing_source ≠ SOURCE_DUBAI_CHAMBER ∧ incoming_source = SOURCE_DUBAI_CHAMBER then
      (if incoming.email = "" then existing.email else incoming.email)
    else existing.email
  let activity := best_activity existing.business_activity incoming.business_activity incoming_source
  let code :=
    if existing.activity_code = "" ∧ incoming.activity_code ≠ "" then incoming.activity_code
    else existing.activity_code
  let url :=
    if existing.source_url = "" ∧ incoming.source_url ≠ "" then incoming.source_url
    else existing.source_url
  let src := if incoming_source = SOURCE_DUBAI_CHAMBER then incoming_source else existing.source
  let nts := merge_notes existing.notes incoming.notes
  let last :=
    if incoming.last_seen_utc ≠ "" ∧
        (existing.last_seen_utc = "" ∨ existing.last_seen_utc < incoming.last_seen_utc) then
      incoming.last_seen_utc
    else existing.last_seen_utc
  { existing with
    phone := phone, email := email, business_activity := activity, activity_code := code,
    source_url := url, source := src, notes := nts, last_seen_utc := last }

/-- The per-row cleaning step of `merge_and_clean.main` (lines 111-134):
trim the company name and drop the row when it is empty, validate the
email (tagging removal in `notes`), trim the phone, and stamp
`last_seen_utc` with `now` when absent. -/
def cleanRecord (now : String) (row : Rec) : Option Rec :=
  if pyStrip row.company_name = "" then none
  else
    some { row with
      company_name := pyStrip row.company_name,
      email := validate_email (pyStrip row.email),
      notes :=
        if pyStrip row.email ≠ "" ∧ validate_email (pyStrip row.email) = "" then
          merge_notes row.notes "email_invalid_removed"
        else row.notes,
      phone := pyStrip row.phone,
      last_seen_utc := if row.last_seen_utc = "" then now else row.last_seen_utc }

/-- The `exact_sig` tuple of `merge_and_clean.main` (lines 144-153). -/
structure Sig where
  name : String
  email : String
  phone : String
  activity : String
  source : String
  code : String
  url : String
  emirate : String
deriving DecidableEq, Repr

/-- `exact_sig` computed from a cleaned row. -/
def exactSig (r : Rec) : Sig where
  name := normalize_company_name r.company_name
  email := pyStrip (pyLower r.email)
  phone := normalize_phone r.phone
  activity := pyLower (pyStrip r.business_activity)
  source := pyLower (pyStrip r.source)
  code := pyLower (pyStrip r.activity_code)
  url := pyLower (pyStrip r.source_url)
  emirate := pyLower (pyStrip r.emirate)

/-- The identity key of `merge_and_clean.main` (lines 158-165), for the
row with index `idx` in the cleaned sequence. -/
def identityKey (idx : Nat) (r : Rec) : String :=
  let normName := normalize_company_name r.company_name
  let normEmail := pyStrip (pyLower r.email)
  let normPhone := normalize_phone r.phone
  if normName ≠ "" ∧ normEmail ≠ "" then normName ++ "|" ++ normEmail
  else if normName ≠ "" ∧ normPhone ≠ "" then normName ++ "|" ++ normPhone
  else "unique|" ++ Nat.repr idx

/-- Lookup in the insertion-ordered association list modelling the
`merged` dict. -/
def lookupEntry : List (String × Rec) → String → Option Rec
  | [], _ => none
  | (k, v) :: rest, key => if k = key then some v else lookupEntry rest key

/-- In-place value update of the `merged` dict (keeps insertion order). -/
def updateEntry : List (String × Rec) → String → Rec → List (String × Rec)
  | [], _, _ => []
  | (k, v) :: rest, key, nv =>
    if k = key then (k, nv) :: rest else (k, v) :: updateEntry rest key nv

/-- `if key in merged: merged[key] = merge_rows(merged[key], row) else:
merged[key] = row` (lines 167-170). -/
def insertOrMerge (m : List (String × Rec)) (key : String) (r : Rec) : List (String × Rec) :=
  match lookupEntry m key with
  | some e => updateEntry m key (merge_rows e r)
  | none => m ++ [(key, r)]

/-- The main dedup-and-merge loop of `merge_and_clean.main`
(lines 136-170) over the cleaned rows, carrying the enumeration index
`idx`, the `seen_exact` set and the `merged` dict. -/
def mergeLoop : List Rec → Nat → List Sig → List (String × Rec) → List (String × Rec)
  | [], _, _, m => m
  | r :: rest, idx, seen, m =>
    if exactSig r ∈ seen then mergeLoop rest (idx + 1) seen m
    else mergeLoop rest (idx + 1) (exactSig r :: seen) (insertOrMerge m (identityKey idx r) r)

/-- The final projection of `merge_and_clean.main` (lines 172-175):
restrict to the output columns (all ten `Rec` fields) and trim every
value. -/
def projectRec (r : Rec) : Rec where
  company_name := pyStrip r.company_name
  business_activity := pyStrip r.business_activity
  phone := pyStrip r.phone
  email := pyStrip r.email
  source := pyStrip r.source
  emirate := pyStrip r.emirate
  activity_code := pyStrip r.activity_code
  source_url := pyStrip r.source_url
  last_seen_utc := pyStrip r.last_seen_utc
  notes := pyStrip r.notes

/-- `chamber_code_counts.get(c, 0)`: rows counted at cleaning time
(lines 129-132) are the cleaned rows whose `source` is the chamber source
and whose (truthy) `activity_code` equals `c`. -/
def chamberCount (cleaned : List Rec) (c : String) : Nat :=
  cleaned.countP
    (fun r => r.source = SOURCE_DUBAI_CHAMBER && r.activity_code ≠ "" && r.activity_code = c)

/-- The warning-level log events of `merge_and_clean.main`. -/
inductive LogWarning where
  | noInput
  | codeGap (code : String)
deriving DecidableEq, Repr

/-- The pure core of `merge_and_clean.main`: from the control list of
chamber codes, the current timestamp and the raw rows, produce the rows
written to the output file (`none` when the empty-input early return fires
and no file is written) together with the warning-level log events. -/
def runPipeline (codes : List String) (now : String) (raws : List Rec) :
    Option (List Rec) × List LogWarning :=
  if raws.isEmpty then (none, [LogWarning.noInput])
  else
    let cleaned := raws.filterMap (cleanRecord now)
    let merged := mergeLoop cleaned 0 [] []
    let outputRows := merged.map (fun p => projectRec p.2)
    let warns := (codes.filter (fun c => chamberCount cleaned c = 0)).map LogWarning.codeGap
    (some outputRows, warns)

/-! ### Lemmas about `pyStrip` -/

lemma dropWhile_head_false {p : Char → Bool} :
    ∀ {l : List Char} {a : Char} {t : List Char}, l.dropWhile p = a :: t → p a = false := by
  intro l
  induction l with
  | nil => intro a t h; simp [List.dropWhile] at h
  | cons c rest ih =>
    intro a t h
    by_cases hc : p c
    · rw [List.dropWhile_cons_of_pos hc] at h; exact ih h
    · rw [List.dropWhile_cons_of_neg hc] at h
      cases h
      simpa using hc

lemma dropWhile_append_singleton {p : Char → Bool} {a : Char} (ha : p a = false) :
    ∀ l : List Char, (l ++ [a]).dropWhile p = l.dropWhile p ++ [a] := by
  intro l
  induction l with
  | nil => simp [List.dropWhile, ha]
  | cons c rest ih =>
    by_cases hc : p c
    · simp only [List.cons_append, List.dropWhile_cons_of_pos hc, ih]
    · simp only [List.cons_append, List.dropWhile_cons_of_neg hc]

lemma dropWhile_cons_false {p : Char → Bool} {a : Char} (ha : p a = false)
    (t : List Char) : (a :: t).dropWhile p = a :: t :=
  List.dropWhile_cons_of_neg (by simp [ha])

lemma stripChars_nil : stripChars [] = [] := rfl

lemma stripChars_idem (l : List Char) : stripChars (stripChars l) = stripChars l := by
  unfold stripChars
  cases hA : l.dropWhile isPySpace with
  | nil => simp
  | cons a A' =>
    have ha : isPySpace a = false := dropWhile_head_false hA
    have hrev : (a :: A').reverse = A'.reverse ++ [a] := by simp
    rw [hrev, dropWhile_append_singleton ha]
    set D := A'.reverse.dropWhile isPySpace with hD
    have hDidem : D.dropWhile isPySpace = D := by
      rw [hD]; exact List.dropWhile_idempotent _ _
    have hrev2 : ((D ++ [a]).reverse).dropWhile isPySpace = (D ++ [a]).reverse := by
      simp only [List.reverse_append, List.reverse_singleton, List.singleton_append]
      exact dropWhile_cons_false ha _
    rw [hrev2]
    cases hDc : D with
    | nil => simp [ha, List.dropWhile]
    | cons d D' =>
      have hd : isPySpace d = false := dropWhile_head_false (hDc ▸ hDidem)
      simp only [List.reverse_reverse, List.cons_append, dropWhile_cons_false hd]

lemma mem_dropWhile_of_false {p : Char → Bool} {c : Char} (hc : p c = false) :
    ∀ {l : List Char}, c ∈ l → c ∈ l.dropWhile p := by
  intro l
  induction l with
  | nil => intro h; cases h
  | cons a rest ih =>
    intro h
    by_cases hpa : p a
    · rw [List.dropWhile_cons_of_pos hpa]
      rcases List.mem_cons.mp h with rfl | h'
      · rw [hpa] at hc; cases hc
      · exact ih h'
    · rw [List.dropWhile_cons_of_neg hpa]; exact h

lemma mem_stripChars_of_false {p : Char} {l : List Char} (hc : isPySpace p = false)
    (h : p ∈ l) : p ∈ stripChars l := by
  unfold stripChars
  rw [List.mem_reverse]
  exact mem_dropWhile_of_false hc (List.mem_reverse.mpr (mem_dropWhile_of_false hc h))

lemma mem_of_mem_stripChars {c : Char} {l : List Char} (h : c ∈ stripChars l) : c ∈ l := by
  unfold stripChars at h
  rw [List.mem_reverse] at h
  have h2 := (List.dropWhile_sublist _).mem h
  rw [List.mem_reverse] at h2
  exact (List.dropWhile_sublist _).mem h2

lemma pyStrip_data (s : String) : (pyStrip s).data = stripChars s.data := rfl

lemma pyStrip_idem (s : String) : pyStrip (pyStrip s) = pyStrip s := by
  unfold pyStrip
  exact congrArg String.mk (stripChars_idem s.data)

lemma string_eq_empty_iff {s : String} : s = "" ↔ s.data = [] :=
  ⟨fun h => by rw [h], fun h => String.ext h⟩

/-! ### Lemmas about `emailMatch` and `validate_email` -/

lemma emailMatch_at_mem {s : String} (h : emailMatch s = true) : '@' ∈ s.data := by
  unfold emailMatch at h
  rw [List.span_eq_take_drop] at h
  rcases hd : s.data.dropWhile (fun c => c ≠ '@') with _ | ⟨c, y⟩
  · rw [hd] at h; simp at h
  · rw [hd] at h
    have hsplit : s.data = s.data.takeWhile (fun c => c ≠ '@') ++ (c :: y) := by
      rw [← hd, List.takeWhile_append_dropWhile]
    by_cases hc : c = '@'
    · subst hc
      rw [hsplit]
      exact List.mem_append.mpr (Or.inr (List.mem_cons_self _ _))
    · have : (fun c => decide (c ≠ '@')) c = false := dropWhile_head_false hd
      simp [hc] at this

lemma emailMatch_ne_empty {s : String} (h : emailMatch s = true) : s ≠ "" := by
  intro he
  have := emailMatch_at_mem h
  rw [string_eq_empty_iff.mp he] at this
  cases this

lemma validate_email_spec (s : String) :
    validate_email s = "" ∨
      (validate_email s = pyStrip s ∧ emailMatch (validate_email s) = true) := by
  unfold validate_email
  split_ifs with h1 h2
  · exact Or.inl rfl
  · exact Or.inr ⟨rfl, h2⟩
  · exact Or.inl rfl

lemma validate_email_empty : validate_email "" = "" := rfl

/-- CLAIM C6 (amended part): `validate_email` is idempotent, and its result
is either `""` or the *trimmed* input. -/
theorem C6_validate_email_idem_trim (s : String) :
    validate_email (validate_email s) = validate_email s ∧
      (validate_email s = "" ∨ validate_email s = pyStrip s) := by
  rcases validate_email_spec s with h | ⟨he, hm⟩
  · rw [h]; exact ⟨rfl, Or.inl rfl⟩
  · refine ⟨?_, Or.inr he⟩
    have hne : validate_email s ≠ "" := emailMatch_ne_empty hm
    have hstrip : pyStrip (validate_email s) = validate_email s := by
      rw [he, pyStrip_idem, ← he]
    conv_lhs => rw [validate_email]
    rw [if_neg hne, hstrip, if_pos hm]

/-- CLAIM C6 (counterexample): on input `" a@b.c "` the function returns
the trimmed string `"a@b.c"`, which is neither empty nor the input
unchanged. -/
theorem C6_counterexample :
    validate_email " a@b.c " = "a@b.c" ∧ validate_email " a@b.c " ≠ " a@b.c " := by
  decide

/-! ### Claims about `merge_rows` directly -/

/-- CLAIM C3: the merged phone equals the incoming phone when the existing
one is empty, the incoming phone when the existing phone is non-empty, the
existing source is not the priority source, the incoming source is the
priority source and the incoming phone is non-empty, and the existing
phone otherwise; the email follows the identical rule. -/
theorem C3_merge_phone_email_rule (e i : Rec) :
    (merge_rows e i).phone =
      (if e.phone = "" then i.phone
       else if e.source ≠ SOURCE_DUBAI_CHAMBER ∧ i.source = SOURCE_DUBAI_CHAMBER ∧ i.phone ≠ ""
       then i.phone
       else e.phone) ∧
    (merge_rows e i).email =
      (if e.email = "" then i.email
       else if e.source ≠ SOURCE_DUBAI_CHAMBER ∧ i.source = SOURCE_DUBAI_CHAMBER ∧ i.email ≠ ""
       then i.email
       else e.email) := by
  constructor <;>
    · show (if _ then _ else _) = _
      split_ifs <;> tauto

/-- CLAIM C10: merging touches only the phone, email, business_activity,
activity_code, source_url, source, notes and last_seen_utc fields; the
survivor's company_name and emirate are returned unchanged. -/
theorem C10_merge_frame (e i : Rec) :
    (merge_rows e i).company_name = e.company_name ∧
      (merge_rows e i).emirate = e.emirate :=
  ⟨rfl, rfl⟩

/-! ### Concrete pipeline scenarios -/

/-- A fixed clock value for concrete runs (`utc_now_iso` output shape). -/
def nowStamp : String := "2026-01-01T00:00:00Z"

/-- First record of the spec scenario behind claim C1. -/
def acmeRaw1 : Rec :=
  { company_name := "Acme Oil", business_activity := "trading",
    phone := "050-1111111", source := "dubai_ded" }

/-- Second record of the spec scenario behind claim C1. -/
def acmeRaw2 : Rec :=
  { company_name := "Acme Oil", business_activity := "oilfield services",
    email := "a@acme.com", source := "dubai_chamber" }

/-- CLAIM C1 (counterexample): the pipeline output on the two-record
scenario has two rows, not the single merged row the claim describes.
The two records never share an identity key: the first keys on its phone
(`"acme oil|+0501111111"`), the second on its email
(`"acme oil|a@acme.com"`). -/
theorem C1_counterexample :
    (runPipeline [] nowStamp [acmeRaw1, acmeRaw2]).1.map List.length = some 2 := by
  decide

/-- CLAIM C1 (amended): the pipeline produces exactly two rows, one per
input record; each keeps its own email, phone (trimmed, not normalized),
activity and source, and no chamber-priority overwriting occurs because
the records are never merged. -/
theorem C1_two_rows :
    runPipeline [] nowStamp [acmeRaw1, acmeRaw2] =
      (some
        [{ company_name := "Acme Oil", business_activity := "trading",
           phone := "050-1111111", email := "", source := "dubai_ded",
           last_seen_utc := nowStamp },
         { company_name := "Acme Oil", business_activity := "oilfield services",
           phone := "", email := "a@acme.com", source := "dubai_chamber",
           last_seen_utc := nowStamp }],
       []) := by
  decide

/-- CLAIM C7: on an empty raw record sequence the pipeline emits exactly
one warning, writes no output file, and returns normally. -/
theorem C7_empty_input (codes : List String) (now : String) :
    runPipeline codes now [] = (none, [LogWarning.noInput]) :=
  rfl

/-! ### Lemmas about `merge_notes` -/

lemma string_mk_data (s : String) : String.mk s.data = s := by
  cases s; rfl

lemma splitSemiChars_ne_nil : ∀ l : List Char, splitSemiChars l ≠ []
  | [] => by simp [splitSemiChars]
  | c :: rest => by
    have := splitSemiChars_ne_nil rest
    unfold splitSemiChars
    rcases h : splitSemiChars rest with _ | ⟨p, ps⟩
    · exact absurd h this
    · split_ifs <;> simp

lemma splitSemiChars_cons_eq {c : Char} {rest : List Char} {q : List Char}
    {qs : List (List Char)} (h : splitSemiChars rest = q :: qs) :
    splitSemiChars (c :: rest) =
      if c = ';' then [] :: q :: qs else (c :: q) :: qs := by
  unfold splitSemiChars
  rw [h]

lemma mem_splitSemiChars_no_semi :
    ∀ (l : List Char) (p : List Char), p ∈ splitSemiChars l → ';' ∉ p
  | [], p, hp => by
    simp [splitSemiChars] at hp
    simp [hp]
  | c :: rest, p, hp => by
    have ih := mem_splitSemiChars_no_semi rest
    rcases h : splitSemiChars rest with _ | ⟨q, qs⟩
    · exact absurd h (splitSemiChars_ne_nil rest)
    · rw [splitSemiChars_cons_eq h] at hp
      by_cases hc : c = ';'
      · rw [if_pos hc] at hp
        rcases List.mem_cons.mp hp with rfl | hp'
        · simp
        · exact ih p (h ▸ hp')
      · rw [if_neg hc] at hp
        rcases List.mem_cons.mp hp with rfl | hp'
        · intro hmem
          rcases List.mem_cons.mp hmem with rfl | hmem'
          · exact hc rfl
          · exact ih q (h ▸ List.mem_cons_self q qs) hmem'
        · exact ih p (h ▸ List.mem_cons.mpr (Or.inr hp'))

lemma splitSemiChars_no_semi : ∀ {l : List Char}, ';' ∉ l → splitSemiChars l = [l]
  | [], _ => rfl
  | c :: rest, h => by
    have hc : c ≠ ';' := fun hc => h (hc ▸ List.mem_cons_self c rest)
    have ih := splitSemiChars_no_semi (fun hm => h (List.mem_cons.mpr (Or.inr hm)))
    rw [splitSemiChars_cons_eq ih, if_neg hc]

lemma splitSemiChars_append_semi :
    ∀ {x : List Char}, ';' ∉ x → ∀ t, splitSemiChars (x ++ ';' :: t) = x :: splitSemiChars t
  | [], _, t => by
    show splitSemiChars (';' :: t) = [] :: splitSemiChars t
    rcases h : splitSemiChars t with _ | ⟨p, ps⟩
    · exact absurd h (splitSemiChars_ne_nil t)
    · rw [splitSemiChars_cons_eq h]
      simp
  | c :: x', h, t => by
    have hc : c ≠ ';' := fun hc => h (hc ▸ List.mem_cons_self c x')
    have ih := splitSemiChars_append_semi (fun hm => h (List.mem_cons.mpr (Or.inr hm))) t
    show splitSemiChars (c :: (x' ++ ';' :: t)) = (c :: x') :: splitSemiChars t
    rcases hs : splitSemiChars t with _ | ⟨p, ps⟩
    · exact absurd hs (splitSemiChars_ne_nil t)
    · rw [hs] at ih
      rw [splitSemiChars_cons_eq ih, if_neg hc]

lemma pySplitSemi_joinSemi :
    ∀ (parts : List String), parts ≠ [] → (∀ p ∈ parts, ';' ∉ p.data) →
      pySplitSemi (joinSemi parts) = parts
  | [], h, _ => absurd rfl h
  | [p], _, hs => by
    have hp : ';' ∉ p.data := hs p (List.mem_cons_self p [])
    show pySplitSemi p = [p]
    unfold pySplitSemi
    rw [splitSemiChars_no_semi hp]
    simp [string_mk_data]
  | p :: q :: rest, _, hs => by
    have hp : ';' ∉ p.data := hs p (List.mem_cons_self p _)
    have ih :=
      pySplitSemi_joinSemi (q :: rest) (by simp)
        (fun r hr => hs r (List.mem_cons.mpr (Or.inr hr)))
    show pySplitSemi (p ++ ";" ++ joinSemi (q :: rest)) = p :: q :: rest
    unfold pySplitSemi
    have hdata : (p ++ ";" ++ joinSemi (q :: rest)).data =
        p.data ++ ';' :: (joinSemi (q :: rest)).data := by
      have hsemi : (";" : String).data = [';'] := rfl
      rw [String.data_append, String.data_append, hsemi, List.append_assoc]
      rfl
    rw [hdata, splitSemiChars_append_semi hp]
    unfold pySplitSemi at ih
    simp only [List.map_cons, string_mk_data, List.cons.injEq, true_and]
    exact ih

/-- The shape invariant of the `parts` list built by `merge_notes`:
entries are nonempty, contain no separator and are already stripped. -/
def GoodTag (t : String) : Prop :=
  t ≠ "" ∧ ';' ∉ t.data ∧ pyStrip t = t

lemma goodTag_pyStrip {it : String} (hsemi : ';' ∉ it.data) (hne : pyStrip it ≠ "") :
    GoodTag (pyStrip it) :=
  ⟨hne, fun hm => hsemi (mem_of_mem_stripChars hm), pyStrip_idem it⟩

lemma addNoteItems_isAppend :
    ∀ (items : List String) (parts : List String),
      ∃ new, addNoteItems parts items = parts ++ new
  | [], parts => ⟨[], by simp [addNoteItems]⟩
  | it :: rest, parts => by
    unfold addNoteItems
    split_ifs with h
    · obtain ⟨new, hnew⟩ := addNoteItems_isAppend rest (parts ++ [pyStrip it])
      exact ⟨pyStrip it :: new, by rw [hnew]; simp⟩
    · exact addNoteItems_isAppend rest parts

lemma addNoteItems_good :
    ∀ (items : List String) (parts : List String),
      (∀ t ∈ parts, GoodTag t) → (∀ it ∈ items, ';' ∉ it.data) →
      ∀ t ∈ addNoteItems parts items, GoodTag t
  | [], parts, hp, _ => hp
  | it :: rest, parts, hp, hi => by
    unfold addNoteItems
    split_ifs with h
    · refine addNoteItems_good rest (parts ++ [pyStrip it]) ?_
        (fun u hu => hi u (List.mem_cons.mpr (Or.inr hu)))
      intro t ht
      rcases List.mem_append.mp ht with ht' | ht'
      · exact hp t ht'
      · rcases List.mem_singleton.mp ht'
        exact goodTag_pyStrip (hi it (List.mem_cons_self it rest)) h.1
    · exact addNoteItems_good rest parts hp
        (fun u hu => hi u (List.mem_cons.mpr (Or.inr hu)))

lemma addNoteItems_eq_of_nodup :
    ∀ (items : List String) (parts : List String),
      ((items.map pyStrip).filter (fun t => t ≠ "")).Nodup →
      addNoteItems parts items =
        parts ++ ((items.map pyStrip).filter (fun t => t ≠ "")).filter (fun t => t ∉ parts)
  | [], parts, _ => by simp [addNoteItems]
  | it :: rest, parts, hnd => by
    unfold addNoteItems
    by_cases he : pyStrip it = ""
    · rw [if_neg (by simp [he])]
      have hlist : ((it :: rest).map pyStrip).filter (fun t => t ≠ "") =
          (rest.map pyStrip).filter (fun t => t ≠ "") := by
        simp [he]
      rw [hlist] at hnd ⊢
      exact addNoteItems_eq_of_nodup rest parts hnd
    · have hlist : ((it :: rest).map pyStrip).filter (fun t => t ≠ "") =
          pyStrip it :: (rest.map pyStrip).filter (fun t => t ≠ "") := by
        simp [he]
      rw [hlist] at hnd ⊢
      have hnotin : pyStrip it ∉ (rest.map pyStrip).filter (fun t => t ≠ "") :=
        (List.nodup_cons.mp hnd).1
      have hndrest : ((rest.map pyStrip).filter (fun t => t ≠ "")).Nodup :=
        (List.nodup_cons.mp hnd).2
      by_cases hm : pyStrip it ∈ parts
      · rw [if_neg (by simp [hm])]
        rw [addNoteItems_eq_of_nodup rest parts hndrest]
        congr 1
        rw [List.filter_cons_of_neg (by simp [hm])]
      · rw [if_pos ⟨he, hm⟩]
        rw [addNoteItems_eq_of_nodup rest (parts ++ [pyStrip it]) hndrest]
        rw [List.filter_cons_of_pos (by simp [hm])]
        rw [List.append_assoc, List.singleton_append]
        congr 2
        apply List.filter_congr
        intro u hu
        have hut : u ≠ pyStrip it := fun h => hnotin (h ▸ hu)
        simp [hut]

lemma notesTags_empty : notesTags "" = [] := by decide

lemma notesTags_good (s : String) : ∀ t ∈ notesTags s, GoodTag t := by
  intro t ht
  unfold notesTags at ht
  obtain ⟨hmem, hne⟩ := List.mem_filter.mp ht
  obtain ⟨it, hit, rfl⟩ := List.mem_map.mp hmem
  refine goodTag_pyStrip ?_ (by simpa using hne)
  unfold pySplitSemi at hit
  obtain ⟨l, hl, rfl⟩ := List.mem_map.mp hit
  simpa using mem_splitSemiChars_no_semi _ l hl

lemma notesTags_joinSemi {parts : List String} (h : ∀ t ∈ parts, GoodTag t) :
    notesTags (joinSemi parts) = parts := by
  rcases hp : parts with _ | ⟨q, qs⟩
  · exact notesTags_empty
  · rw [← hp]
    have hne : parts ≠ [] := by rw [hp]; simp
    unfold notesTags
    rw [pySplitSemi_joinSemi parts hne (fun p hm => (h p hm).2.1)]
    have hmap : parts.map pyStrip = parts := by
      conv_rhs => rw [← List.map_id parts]
      exact List.map_congr_left (fun t ht => (h t ht).2.2)
    rw [hmap]
    exact List.filter_eq_self.mpr (fun t ht => by simp [(h t ht).1])

lemma noteParts_eq {value : String} (parts : List String)
    (hn : (notesTags value).Nodup) :
    noteParts value parts = parts ++ (notesTags value).filter (fun t => t ∉ parts) := by
  unfold noteParts
  split_ifs with h
  · rw [h, notesTags_empty]; simp
  · exact addNoteItems_eq_of_nodup _ parts hn

lemma noteParts_good {value : String} {parts : List String}
    (hp : ∀ t ∈ parts, GoodTag t) : ∀ t ∈ noteParts value parts, GoodTag t := by
  unfold noteParts
  split_ifs with h
  · exact hp
  · refine addNoteItems_good _ parts hp ?_
    intro it hit
    unfold pySplitSemi at hit
    obtain ⟨l, hl, rfl⟩ := List.mem_map.mp hit
    simpa using mem_splitSemiChars_no_semi _ l hl

/-- CLAIM C9: when each operand's tag list has pairwise-distinct tags,
`merge_notes` produces the append-union: the first operand's tags in
order, then the second operand's tags not already present, with no
duplicate in the result. -/
theorem C9_merge_notes_union (a b : String)
    (ha : (notesTags a).Nodup) (hb : (notesTags b).Nodup) :
    notesTags (merge_notes a b) =
        notesTags a ++ (notesTags b).filter (fun t => t ∉ notesTags a) ∧
      (notesTags (merge_notes a b)).Nodup := by
  have h1 : noteParts a [] = notesTags a := by
    rw [noteParts_eq [] ha]
    simp
  have h2 : noteParts b (noteParts a []) =
      notesTags a ++ (notesTags b).filter (fun t => t ∉ notesTags a) := by
    rw [noteParts_eq _ hb, h1]
  have hgood : ∀ t ∈ noteParts b (noteParts a []), GoodTag t :=
    noteParts_good (noteParts_good (by simp))
  have htags : notesTags (merge_notes a b) = noteParts b (noteParts a []) :=
    notesTags_joinSemi hgood
  refine ⟨htags.trans h2, ?_⟩
  rw [htags, h2]
  refine List.Nodup.append ha (hb.filter _) ?_
  intro t ht1 ht2
  exact absurd ht1 (by simpa using (List.mem_filter.mp ht2).2)

/-- Witness for C9 at concrete notes strings. -/
theorem C9_witness :
    notesTags (merge_notes "x;y" "y;z") = ["x", "y", "z"] ∧
      (notesTags (merge_notes "x;y" "y;z")).Nodup := by
  have h := C9_merge_notes_union "x;y" "y;z" (by decide) (by decide)
  exact ⟨h.1.trans (by decide), h.2⟩

/-! ### The email invariant (claim C8) -/

lemma mem_noteParts_tag {t : String} (hne : t ≠ "") (hsemi : ';' ∉ t.data)
    (hstr : pyStrip t = t) (parts : List String) : t ∈ noteParts t parts := by
  unfold noteParts
  rw [if_neg hne]
  have hsplit : pySplitSemi t = [t] := by
    unfold pySplitSemi
    rw [splitSemiChars_no_semi hsemi]
    simp [string_mk_data]
  rw [hsplit]
  unfold addNoteItems
  rw [hstr]
  split_ifs with h
  · show t ∈ addNoteItems (parts ++ [t]) []
    unfold addNoteItems
    simp
  · have hmem : t ∈ parts := by
      rcases not_and_or.mp h with h1 | h2
      · exact absurd hne (by simpa using h1)
      · simpa using h2
    show t ∈ addNoteItems parts []
    exact hmem

lemma cleanRecord_some {now : String} {row r : Rec} (h : cleanRecord now row = some r) :
    r = { row with
      company_name := pyStrip row.company_name,
      email := validate_email (pyStrip row.email),
      notes :=
        if pyStrip row.email ≠ "" ∧ validate_email (pyStrip row.email) = "" then
          merge_notes row.notes "email_invalid_removed"
        else row.notes,
      phone := pyStrip row.phone,
      last_seen_utc := if row.last_seen_utc = "" then now else row.last_seen_utc } := by
  unfold cleanRecord at h
  by_cases hc : pyStrip row.company_name = ""
  · rw [if_pos hc] at h; cases h
  · rw [if_neg hc] at h
    exact (Option.some_inj.mp h).symm

lemma merge_rows_email_cases (e i : Rec) :
    (merge_rows e i).email = e.email ∨ (merge_rows e i).email = i.email := by
  show (if _ then _ else _) = e.email ∨ (if _ then _ else _) = i.email
  split_ifs <;> simp

/-- CLAIM C8: a cleaned record's email is empty or matches the strict
regex; when a non-empty original email was removed by validation, the
`email_invalid_removed` tag is in the record's notes; and the email
invariant is preserved by `merge_rows`. -/
theorem C8_email_invariant :
    (∀ (now : String) (row r : Rec), cleanRecord now row = some r →
        (r.email = "" ∨ emailMatch r.email = true)) ∧
      (∀ (now : String) (row r : Rec), cleanRecord now row = some r →
        pyStrip row.email ≠ "" → r.email = "" →
        "email_invalid_removed" ∈ notesTags r.notes) ∧
      (∀ e i : Rec, (e.email = "" ∨ emailMatch e.email = true) →
        (i.email = "" ∨ emailMatch i.email = true) →
        ((merge_rows e i).email = "" ∨ emailMatch (merge_rows e i).email = true)) := by
  refine ⟨?_, ?_, ?_⟩
  · intro now row r h
    rw [cleanRecord_some h]
    rcases validate_email_spec (pyStrip row.email) with h1 | ⟨h1, h2⟩
    · exact Or.inl h1
    · exact Or.inr h2
  · intro now row r h hne hempty
    have hr := cleanRecord_some h
    have hcond : pyStrip row.email ≠ "" ∧ validate_email (pyStrip row.email) = "" := by
      refine ⟨hne, ?_⟩
      have : r.email = validate_email (pyStrip row.email) := by rw [hr]
      rw [← this]
      exact hempty
    have hnotes : r.notes = merge_notes row.notes "email_invalid_removed" := by
      rw [hr]
      exact if_pos hcond
    rw [hnotes]
    unfold merge_notes
    have hmem : "email_invalid_removed" ∈
        noteParts "email_invalid_removed" (noteParts row.notes []) :=
      mem_noteParts_tag (by decide) (by decide) (by decide) _
    have hgood : ∀ t ∈ noteParts "email_invalid_removed" (noteParts row.notes []), GoodTag t :=
      noteParts_good (noteParts_good (by simp))
    rw [notesTags_joinSemi hgood]
    exact hmem
  · intro e i he hi
    rcases merge_rows_email_cases e i with h | h <;> rw [h]
    · exact he
    · exact hi

/-- A raw record with a non-empty email that fails validation. -/
def rawBadEmail : Rec := { company_name := "A", email := "not an email" }

/-- The cleaned form of `rawBadEmail`. -/
def cleanedBadEmail : Rec :=
  { company_name := "A", email := "", notes := "email_invalid_removed",
    last_seen_utc := nowStamp }

/-- Witness for C8 at a concrete invalid-email record. -/
theorem C8_witness :
    (cleanedBadEmail.email = "" ∨ emailMatch cleanedBadEmail.email = true) ∧
      "email_invalid_removed" ∈ notesTags cleanedBadEmail.notes ∧
      ((merge_rows cleanedBadEmail cleanedBadEmail).email = "" ∨
        emailMatch (merge_rows cleanedBadEmail cleanedBadEmail).email = true) :=
  ⟨C8_email_invariant.1 nowStamp rawBadEmail cleanedBadEmail (by decide),
   C8_email_invariant.2.1 nowStamp rawBadEmail cleanedBadEmail (by decide) (by decide)
     (by decide),
   C8_email_invariant.2.2 cleanedBadEmail cleanedBadEmail (Or.inl rfl) (Or.inl rfl)⟩

/-! ### The exact-duplicate guard (claim C4) -/

/-- The all-empty record (a missing row). -/
def defaultRec : Rec := {}

/-- The exact-duplicate guard of the main loop in isolation, keeping the
original enumeration index of each surviving row. -/
def dedupGo (seen : List Sig) (idx : Nat) : List Rec → List (Nat × Rec)
  | [] => []
  | r :: rest =>
    if exactSig r ∈ seen then dedupGo seen (idx + 1) rest
    else (idx, r) :: dedupGo (exactSig r :: seen) (idx + 1) rest

/-- The rows of a cleaned sequence that pass the exact-duplicate guard,
with their enumeration indices. -/
def dedupExactIdx (l : List Rec) : List (Nat × Rec) := dedupGo [] 0 l

/-- The identity-keyed merging part of the main loop, over the rows that
passed the guard. -/
def mergeKeyLoop : List (Nat × Rec) → List (String × Rec) → List (String × Rec)
  | [], m => m
  | (i, r) :: rest, m => mergeKeyLoop rest (insertOrMerge m (identityKey i r) r)

lemma mergeLoop_eq_keyLoop :
    ∀ (l : List Rec) (idx : Nat) (seen : List Sig) (m : List (String × Rec)),
      mergeLoop l idx seen m = mergeKeyLoop (dedupGo seen idx l) m
  | [], _, _, _ => rfl
  | r :: rest, idx, seen, m => by
    unfold mergeLoop dedupGo
    split_ifs with h
    · exact mergeLoop_eq_keyLoop rest (idx + 1) seen m
    · show mergeLoop rest (idx + 1) _ _ = mergeKeyLoop ((idx, r) :: _) m
      unfold mergeKeyLoop
      exact mergeLoop_eq_keyLoop rest (idx + 1) _ _

lemma dedupGo_mem :
    ∀ (l : List Rec) (seen : List Sig) (idx : Nat) (p : Nat × Rec),
      p ∈ dedupGo seen idx l ↔
        ∃ k, k < l.length ∧ p.1 = idx + k ∧ p.2 = l.getD k defaultRec ∧
          exactSig (l.getD k defaultRec) ∉ seen ∧
          ∀ j, j < k → exactSig (l.getD j defaultRec) ≠ exactSig (l.getD k defaultRec) := by
  intro l
  induction l with
  | nil => intro seen idx p; simp [dedupGo]
  | cons r rest ih =>
    intro seen idx p
    unfold dedupGo
    by_cases h : exactSig r ∈ seen
    · rw [if_pos h, ih]
      constructor
      · rintro ⟨k', hk', h1, h2, h3, h4⟩
        refine ⟨k' + 1, by simpa using Nat.succ_lt_succ hk', by omega,
          by simpa using h2, by simpa using h3, ?_⟩
        intro j hj
        rcases j with _ | j'
        · simp only [List.getD_cons_zero, List.getD_cons_succ]
          intro heq
          rw [heq] at h
          exact h3 h
        · simp only [List.getD_cons_succ]
          exact h4 j' (by omega)
      · rintro ⟨k, hk, h1, h2, h3, h4⟩
        rcases k with _ | k'
        · simp only [List.getD_cons_zero] at h3
          exact absurd h h3
        · simp only [List.getD_cons_succ] at h2 h3
          refine ⟨k', by simpa using hk, by omega, h2, h3, ?_⟩
          intro j' hj'
          have := h4 (j' + 1) (by omega)
          simpa using this
    · rw [if_neg h]
      rw [List.mem_cons, ih]
      constructor
      · rintro (rfl | ⟨k', hk', h1, h2, h3, h4⟩)
        · exact ⟨0, by simp, by simp, by simp, by simpa using h, by omega⟩
        · refine ⟨k' + 1, by simpa using Nat.succ_lt_succ hk', by omega,
            by simpa using h2, ?_, ?_⟩
          · simp only [List.getD_cons_succ]
            exact fun hmem => h3 (List.mem_cons.mpr (Or.inr hmem))
          · intro j hj
            rcases j with _ | j'
            · simp only [List.getD_cons_zero, List.getD_cons_succ]
              exact fun heq => h3 (List.mem_cons.mpr (Or.inl heq.symm))
            · simp only [List.getD_cons_succ]
              exact h4 j' (by omega)
      · rintro ⟨k, hk, h1, h2, h3, h4⟩
        rcases k with _ | k'
        · simp only [List.getD_cons_zero] at h2
          left
          have : p.1 = idx := by omega
          exact Prod.ext this h2
        · right
          simp only [List.getD_cons_succ] at h2 h3
          refine ⟨k', by simpa using hk, by omega, h2, ?_, ?_⟩
          · rw [List.mem_cons]
            push_neg
            refine ⟨?_, h3⟩
            have := h4 0 (by omega)
            simp only [List.getD_cons_zero, List.getD_cons_succ] at this
            exact fun heq => this heq.symm
          · intro j' hj'
            have := h4 (j' + 1) (by omega)
            simpa using this

/-- CLAIM C4 (amended): the main loop factors through the exact-duplicate
guard, and the guard keeps the row at position `i` if and only if no
earlier row has the same `exact_sig` — a tuple of *normalized* fields, so
rows that differ only in characters erased by normalization (e.g. letter
case) are also suppressed. -/
theorem C4_exact_dup_guard :
    (∀ (l : List Rec) (idx : Nat) (seen : List Sig) (m : List (String × Rec)),
        mergeLoop l idx seen m = mergeKeyLoop (dedupGo seen idx l) m) ∧
      ∀ (l : List Rec) (i : Nat), i < l.length →
        ((i, l.getD i defaultRec) ∈ dedupExactIdx l ↔
          ∀ j, j < i → exactSig (l.getD j defaultRec) ≠ exactSig (l.getD i defaultRec)) := by
  refine ⟨mergeLoop_eq_keyLoop, ?_⟩
  intro l i hi
  unfold dedupExactIdx
  rw [dedupGo_mem]
  constructor
  · rintro ⟨k, hk, h1, h2, _, h4⟩
    have hik : i = k := by omega
    subst hik
    exact h4
  · intro h4
    exact ⟨i, hi, by omega, rfl, by simp, h4⟩

/-- A cleaned row whose company name is capitalized one way. -/
def caseRecA : Rec := { company_name := "Acme" }

/-- A cleaned row identical to `caseRecA` except for the byte-level case
of its company name. -/
def caseRecB : Rec := { company_name := "ACME" }

/-- CLAIM C4 (counterexample): two cleaned records that differ in bytes of
the company-name field are nevertheless collapsed by the guard: the
pipeline keeps only one of them. -/
theorem C4_counterexample :
    caseRecA.company_name ≠ caseRecB.company_name ∧
      ([caseRecA, caseRecB].filterMap (cleanRecord nowStamp)).length = 2 ∧
      (dedupExactIdx ([caseRecA, caseRecB].filterMap (cleanRecord nowStamp))).length = 1 ∧
      (runPipeline [] nowStamp [caseRecA, caseRecB]).1.map List.length = some 1 := by
  decide

/-- Witness for the C4 characterization at a concrete two-row list whose
signatures differ: the second row is kept. -/
theorem C4_witness :
    (1 < [caseRecA, acmeRaw1].length) ∧
      (1, [caseRecA, acmeRaw1].getD 1 defaultRec) ∈ dedupExactIdx [caseRecA, acmeRaw1] :=
  ⟨by decide,
    (C4_exact_dup_guard.2 [caseRecA, acmeRaw1] 1 (by decide)).mpr (by decide)⟩

/-! ### Decimal representation facts about `Nat.repr`
(the embedding of the f-string `f"unique|{idx}"`) -/

/-- Most-significant-first decimal digit characters of a natural
number. -/
def decDigits (n : Nat) : List Char :=
  if n < 10 then [Nat.digitChar n]
  else decDigits (n / 10) ++ [Nat.digitChar (n % 10)]
termination_by n
decreasing_by exact Nat.div_lt_self (by omega) (by omega)

lemma decDigits_of_lt {n : Nat} (h : n < 10) : decDigits n = [Nat.digitChar n] := by
  conv_lhs => rw [decDigits]
  exact if_pos h

lemma decDigits_of_ge {n : Nat} (h : ¬ n < 10) :
    decDigits n = decDigits (n / 10) ++ [Nat.digitChar (n % 10)] := by
  conv_lhs => rw [decDigits]
  exact if_neg h

lemma toDigitsCore_eq_decDigits :
    ∀ (fuel n : Nat) (ds : List Char), n < fuel →
      Nat.toDigitsCore 10 fuel n ds = decDigits n ++ ds := by
  intro fuel
  induction fuel with
  | zero => intro n ds h; omega
  | succ f ih =>
    intro n ds h
    show (if n / 10 = 0 then Nat.digitChar (n % 10) :: ds
          else Nat.toDigitsCore 10 f (n / 10) (Nat.digitChar (n % 10) :: ds)) =
        decDigits n ++ ds
    by_cases hdiv : n / 10 = 0
    · have hn : n < 10 := by omega
      rw [if_pos hdiv, decDigits_of_lt hn, Nat.mod_eq_of_lt hn]
      rfl
    · have hn : ¬ n < 10 := by omega
      have hlt : n / 10 < f := by
        have h2 : n / 10 < n := Nat.div_lt_self (by omega) (by omega)
        omega
      rw [if_neg hdiv, ih (n / 10) _ hlt, decDigits_of_ge hn, List.append_assoc]
      rfl

lemma natRepr_data (n : Nat) : (Nat.repr n).data = decDigits n := by
  show (Nat.toDigitsCore 10 (n + 1) n []).asString.data = decDigits n
  rw [toDigitsCore_eq_decDigits (n + 1) n [] (by omega), List.append_nil]
  rfl

lemma digitChar_isDigit {m : Nat} (h : m < 10) : (Nat.digitChar m).isDigit = true := by
  interval_cases m <;> decide

lemma digitChar_inj_lt {a b : Nat} (ha : a < 10) (hb : b < 10) :
    Nat.digitChar a = Nat.digitChar b → a = b := by
  interval_cases a <;> interval_cases b <;> decide

lemma decDigits_ne_nil (n : Nat) : decDigits n ≠ [] := by
  by_cases h : n < 10
  · rw [decDigits_of_lt h]; simp
  · rw [decDigits_of_ge h]; simp

lemma decDigits_all_digit (n : Nat) : ∀ c ∈ decDigits n, c.isDigit = true := by
  induction n using Nat.strong_induction_on with
  | _ n ih =>
    by_cases h : n < 10
    · rw [decDigits_of_lt h]
      intro c hc
      rcases List.mem_singleton.mp hc
      exact digitChar_isDigit h
    · rw [decDigits_of_ge h]
      intro c hc
      rcases List.mem_append.mp hc with h1 | h2
      · exact ih (n / 10) (Nat.div_lt_self (by omega) (by omega)) c h1
      · rcases List.mem_singleton.mp h2
        exact digitChar_isDigit (Nat.mod_lt n (by omega))

lemma decDigits_inj : ∀ {m n : Nat}, decDigits m = decDigits n → m = n := by
  intro m
  induction m using Nat.strong_induction_on with
  | _ m ih =>
    intro n h
    by_cases hm : m < 10 <;> by_cases hn : n < 10
    · rw [decDigits_of_lt hm, decDigits_of_lt hn] at h
      exact digitChar_inj_lt hm hn (List.cons_eq_cons.mp h).1
    · rw [decDigits_of_lt hm, decDigits_of_ge hn] at h
      have hlen := congrArg List.length h
      have hne := decDigits_ne_nil (n / 10)
      simp only [List.length_singleton, List.length_append] at hlen
      cases hd : decDigits (n / 10) with
      | nil => exact absurd hd hne
      | cons a t => rw [hd] at hlen; simp at hlen
    · rw [decDigits_of_ge hm, decDigits_of_lt hn] at h
      have hlen := congrArg List.length h
      have hne := decDigits_ne_nil (m / 10)
      simp only [List.length_singleton, List.length_append] at hlen
      cases hd : decDigits (m / 10) with
      | nil => exact absurd hd hne
      | cons a t => rw [hd] at hlen; simp at hlen
    · rw [decDigits_of_ge hm, decDigits_of_ge hn] at h
      obtain ⟨h1, h2⟩ := List.append_inj' h (by simp)
      have hdiv : m / 10 = n / 10 :=
        ih (m / 10) (Nat.div_lt_self (by omega) (by omega)) h1
      have hmod : m % 10 = n % 10 :=
        digitChar_inj_lt (Nat.mod_lt m (by omega)) (Nat.mod_lt n (by omega))
          (List.cons_eq_cons.mp h2).1
      omega

lemma natRepr_inj {m n : Nat} (h : Nat.repr m = Nat.repr n) : m = n :=
  decDigits_inj (by rw [← natRepr_data, ← natRepr_data, h])

lemma natRepr_no_at (n : Nat) : '@' ∉ (Nat.repr n).data := by
  intro h
  rw [natRepr_data] at h
  have := decDigits_all_digit n '@' h
  exact absurd this (by decide)

lemma natRepr_no_plus (n : Nat) : '+' ∉ (Nat.repr n).data := by
  intro h
  rw [natRepr_data] at h
  have := decDigits_all_digit n '+' h
  exact absurd this (by decide)

/-! ### Synthetic identity keys (claim C5) -/

lemma lookupEntry_cons (k : String) (v : Rec) (rest : List (String × Rec)) (key : String) :
    lookupEntry ((k, v) :: rest) key = if k = key then some v else lookupEntry rest key :=
  rfl

lemma lookupEntry_append_single :
    ∀ (m : List (String × Rec)) (key key' : String) (r : Rec), key' ≠ key →
      lookupEntry (m ++ [(key', r)]) key = lookupEntry m key
  | [], key, key', r, hne => by
    show (if key' = key then some r else lookupEntry [] key) = lookupEntry [] key
    rw [if_neg hne]
  | (k, v) :: rest, key, key', r, hne => by
    rw [List.cons_append, lookupEntry_cons, lookupEntry_cons]
    by_cases hk : k = key
    · rw [if_pos hk, if_pos hk]
    · rw [if_neg hk, if_neg hk]
      exact lookupEntry_append_single rest key key' r hne

lemma lookupEntry_append_self :
    ∀ (m : List (String × Rec)) (key : String) (r : Rec), lookupEntry m key = none →
      lookupEntry (m ++ [(key, r)]) key = some r
  | [], key, r, _ => by
    show (if key = key then some r else lookupEntry [] key) = some r
    rw [if_pos rfl]
  | (k, v) :: rest, key, r, h => by
    rw [lookupEntry_cons] at h
    rw [List.cons_append, lookupEntry_cons]
    by_cases hk : k = key
    · rw [if_pos hk] at h; cases h
    · rw [if_neg hk] at h
      rw [if_neg hk]
      exact lookupEntry_append_self rest key r h

lemma updateEntry_cons (k : String) (v : Rec) (rest : List (String × Rec)) (key : String)
    (nv : Rec) :
    updateEntry ((k, v) :: rest) key nv =
      if k = key then (k, nv) :: rest else (k, v) :: updateEntry rest key nv :=
  rfl

lemma lookupEntry_update_ne :
    ∀ (m : List (String × Rec)) (key key' : String) (v : Rec), key' ≠ key →
      lookupEntry (updateEntry m key' v) key = lookupEntry m key
  | [], _, _, _, _ => rfl
  | (k, w) :: rest, key, key', v, hne => by
    rw [updateEntry_cons]
    by_cases hk : k = key'
    · rw [if_pos hk, lookupEntry_cons, lookupEntry_cons, if_neg (hk ▸ hne), if_neg (hk ▸ hne)]
    · rw [if_neg hk, lookupEntry_cons, lookupEntry_cons]
      by_cases hkk : k = key
      · rw [if_pos hkk, if_pos hkk]
      · rw [if_neg hkk, if_neg hkk]
        exact lookupEntry_update_ne rest key key' v hne

lemma lookupEntry_insertOrMerge_ne {m : List (String × Rec)} {key key' : String} {r : Rec}
    (hne : key' ≠ key) :
    lookupEntry (insertOrMerge m key' r) key = lookupEntry m key := by
  unfold insertOrMerge
  cases h : lookupEntry m key' with
  | some e => exact lookupEntry_update_ne m key key' (merge_rows e r) hne
  | none => exact lookupEntry_append_single m key key' r hne

lemma insertOrMerge_lookup_self_none {m : List (String × Rec)} {key : String} {r : Rec}
    (h : lookupEntry m key = none) :
    lookupEntry (insertOrMerge m key r) key = some r := by
  unfold insertOrMerge
  rw [h]
  exact lookupEntry_append_self m key r h

lemma mergeKeyLoop_append :
    ∀ (a b : List (Nat × Rec)) (m : List (String × Rec)),
      mergeKeyLoop (a ++ b) m = mergeKeyLoop b (mergeKeyLoop a m)
  | [], _, _ => rfl
  | (i, r) :: rest, b, m => by
    show mergeKeyLoop (rest ++ b) (insertOrMerge m (identityKey i r) r) = _
    exact mergeKeyLoop_append rest b _

lemma mergeKeyLoop_lookup_skip :
    ∀ (pairs : List (Nat × Rec)) (m : List (String × Rec)) (key : String),
      (∀ p ∈ pairs, identityKey p.1 p.2 ≠ key) →
      lookupEntry (mergeKeyLoop pairs m) key = lookupEntry m key
  | [], _, _, _ => rfl
  | (i, r) :: rest, m, key, h => by
    show lookupEntry (mergeKeyLoop rest (insertOrMerge m (identityKey i r) r)) key = _
    rw [mergeKeyLoop_lookup_skip rest _ key (fun p hp => h p (List.mem_cons.mpr (Or.inr hp)))]
    exact lookupEntry_insertOrMerge_ne (h (i, r) (List.mem_cons_self _ _))

lemma dedupGo_idx_le :
    ∀ (l : List Rec) (seen : List Sig) (idx : Nat) (p : Nat × Rec),
      p ∈ dedupGo seen idx l → idx ≤ p.1
  | [], _, _, p, h => by simp [dedupGo] at h
  | r :: rest, seen, idx, p, h => by
    unfold dedupGo at h
    split_ifs at h with hs
    · have := dedupGo_idx_le rest seen (idx + 1) p h
      omega
    · rcases List.mem_cons.mp h with rfl | h'
      · simp
      · have := dedupGo_idx_le rest _ (idx + 1) p h'
        omega

lemma dedupGo_pairwise :
    ∀ (l : List Rec) (seen : List Sig) (idx : Nat),
      (dedupGo seen idx l).Pairwise (fun a b => a.1 < b.1)
  | [], _, _ => by simp [dedupGo]
  | r :: rest, seen, idx => by
    unfold dedupGo
    split_ifs with hs
    · exact dedupGo_pairwise rest seen (idx + 1)
    · refine List.Pairwise.cons ?_ (dedupGo_pairwise rest _ (idx + 1))
      intro b hb
      have := dedupGo_idx_le rest _ (idx + 1) b hb
      show idx < b.1
      omega

lemma normalize_phone_shape (s : String) :
    normalize_phone s = "" ∨ ∃ t, (normalize_phone s).data = '+' :: t := by
  simp only [normalize_phone]
  split_ifs <;> first
    | exact Or.inl rfl
    | exact Or.inr ⟨_, rfl⟩

lemma cleanRecord_email_ok {now : String} {row r : Rec} (h : cleanRecord now row = some r) :
    r.email = "" ∨ emailMatch r.email = true := by
  rw [cleanRecord_some h]
  rcases validate_email_spec (pyStrip row.email) with h1 | ⟨_, h2⟩
  · exact Or.inl h1
  · exact Or.inr h2

lemma normEmail_at {r : Rec} (hok : r.email = "" ∨ emailMatch r.email = true)
    (hne : pyStrip (pyLower r.email) ≠ "") : '@' ∈ (pyStrip (pyLower r.email)).data := by
  rcases hok with h | h
  · exact absurd (by rw [h]; rfl) hne
  · have h1 : '@' ∈ (pyLower r.email).data :=
      List.mem_map.mpr ⟨'@', emailMatch_at_mem h, by decide⟩
    rw [pyStrip_data]
    exact mem_stripChars_of_false (by decide) h1

lemma identityKey_synthetic {idx : Nat} {r : Rec}
    (he : pyStrip (pyLower r.email) = "") (hp : normalize_phone r.phone = "") :
    identityKey idx r = "unique|" ++ Nat.repr idx := by
  simp only [identityKey]
  rw [if_neg (fun hc => hc.2 he), if_neg (fun hc => hc.2 hp)]

lemma identityKey_ne_synthetic {k i : Nat} {s : Rec}
    (hok : s.email = "" ∨ emailMatch s.email = true) (hki : k ≠ i) :
    identityKey k s ≠ "unique|" ++ Nat.repr i := by
  simp only [identityKey]
  split_ifs with h1 h2
  · intro heq
    have hat : '@' ∈ ("unique|" ++ Nat.repr i).data := by
      rw [← heq, String.data_append, String.data_append]
      exact List.mem_append.mpr (Or.inr (normEmail_at hok h1.2))
    rw [String.data_append] at hat
    rcases List.mem_append.mp hat with hmem | hmem
    · exact absurd hmem (by decide)
    · exact absurd hmem (natRepr_no_at i)
  · intro heq
    rcases normalize_phone_shape s.phone with hz | ⟨t, ht⟩
    · exact h2.2 hz
    · have hplus : '+' ∈ ("unique|" ++ Nat.repr i).data := by
        rw [← heq, String.data_append, String.data_append]
        refine List.mem_append.mpr (Or.inr ?_)
        rw [ht]
        exact List.mem_cons_self _ _
      rw [String.data_append] at hplus
      rcases List.mem_append.mp hplus with hmem | hmem
      · exact absurd hmem (by decide)
      · exact absurd hmem (natRepr_no_plus i)
  · intro heq
    have hd := congrArg String.data heq
    rw [String.data_append, String.data_append] at hd
    exact hki (natRepr_inj (String.ext (List.append_cancel_left hd)))

lemma getD_mem_of_lt {l : List Rec} {k : Nat} (h : k < l.length) :
    l.getD k defaultRec ∈ l := by
  rw [List.getD_eq_getElem l defaultRec h]
  exact List.getElem_mem h

lemma mergeKeyLoop_unmerged {cleaned : List Rec}
    (hok : ∀ s ∈ cleaned, s.email = "" ∨ emailMatch s.email = true)
    {i : Nat} {ri : Rec} (hmem : (i, ri) ∈ dedupExactIdx cleaned)
    (he : pyStrip (pyLower ri.email) = "") (hp : normalize_phone ri.phone = "") :
    lookupEntry (mergeLoop cleaned 0 [] []) ("unique|" ++ Nat.repr i) = some ri := by
  rw [mergeLoop_eq_keyLoop]
  obtain ⟨pre, post, hsplit⟩ := List.append_of_mem hmem
  have hpw : (dedupExactIdx cleaned).Pairwise (fun a b => a.1 < b.1) :=
    dedupGo_pairwise cleaned [] 0
  rw [hsplit] at hpw
  obtain ⟨hpw1, hpw2, hpw3⟩ := List.pairwise_append.mp hpw
  have hkey : identityKey i ri = "unique|" ++ Nat.repr i := identityKey_synthetic he hp
  have hother : ∀ p : Nat × Rec, p ∈ dedupExactIdx cleaned → p.1 ≠ i →
      identityKey p.1 p.2 ≠ "unique|" ++ Nat.repr i := by
    intro p hpmem hpne
    obtain ⟨k, hk, _, h2, _, _⟩ := (dedupGo_mem cleaned [] 0 p).mp hpmem
    have hsm : p.2 ∈ cleaned := by
      rw [h2]
      exact getD_mem_of_lt hk
    exact identityKey_ne_synthetic (hok p.2 hsm) hpne
  have hpre : ∀ p ∈ pre, identityKey p.1 p.2 ≠ identityKey i ri := by
    intro p hpp
    rw [hkey]
    refine hother p (by rw [hsplit]; exact List.mem_append.mpr (Or.inl hpp)) ?_
    have := hpw3 p hpp (i, ri) (List.mem_cons_self _ _)
    omega
  have hpost : ∀ p ∈ post, identityKey p.1 p.2 ≠ identityKey i ri := by
    intro p hpp
    rw [hkey]
    refine hother p
      (by rw [hsplit]; exact List.mem_append.mpr (Or.inr (List.mem_cons.mpr (Or.inr hpp)))) ?_
    have := (List.pairwise_cons.mp hpw2).1 p hpp
    omega
  show lookupEntry (mergeKeyLoop (dedupExactIdx cleaned) []) _ = some ri
  rw [hsplit, mergeKeyLoop_append]
  show lookupEntry
      (mergeKeyLoop post (insertOrMerge (mergeKeyLoop pre []) (identityKey i ri) ri))
      ("unique|" ++ Nat.repr i) = some ri
  rw [← hkey, mergeKeyLoop_lookup_skip post _ _ hpost]
  apply insertOrMerge_lookup_self_none
  rw [mergeKeyLoop_lookup_skip pre [] _ hpre]
  rfl

/-- CLAIM C5 (amended): two records at distinct cleaned positions that
both lack a usable email and phone *and pass the exact-duplicate guard*
each receive the synthetic `"unique|" + index` key and survive as their
own, unmerged entities under distinct keys. -/
theorem C5_synthetic_keys (raws : List Rec) (now : String) (cleaned : List Rec)
    (hc : cleaned = raws.filterMap (cleanRecord now))
    (i j : Nat) (ri rj : Rec) (hij : i ≠ j)
    (hi : (i, ri) ∈ dedupExactIdx cleaned) (hj : (j, rj) ∈ dedupExactIdx cleaned)
    (hie : pyStrip (pyLower ri.email) = "") (hip : normalize_phone ri.phone = "")
    (hje : pyStrip (pyLower rj.email) = "") (hjp : normalize_phone rj.phone = "") :
    lookupEntry (mergeLoop cleaned 0 [] []) ("unique|" ++ Nat.repr i) = some ri ∧
      lookupEntry (mergeLoop cleaned 0 [] []) ("unique|" ++ Nat.repr j) = some rj ∧
      ("unique|" ++ Nat.repr i : String) ≠ "unique|" ++ Nat.repr j := by
  have hok : ∀ s ∈ cleaned, s.email = "" ∨ emailMatch s.email = true := by
    intro s hs
    rw [hc] at hs
    obtain ⟨raw, _, hcl⟩ := List.mem_filterMap.mp hs
    exact cleanRecord_email_ok hcl
  refine ⟨mergeKeyLoop_unmerged hok hi hie hip, mergeKeyLoop_unmerged hok hj hje hjp, ?_⟩
  intro heq
  have hd := congrArg String.data heq
  rw [String.data_append, String.data_append] at hd
  exact hij (natRepr_inj (String.ext (List.append_cancel_left hd)))

/-- A record with no identifiers, distinguished only by its notes. -/
def noIdRaw1 : Rec := { company_name := "Acme", notes := "seen_once" }

/-- A second record with no identifiers, identical to `noIdRaw1` on every
`exact_sig` field but distinct as a record. -/
def noIdRaw2 : Rec := { company_name := "Acme", notes := "seen_twice" }

/-- CLAIM C5 (counterexample): two *distinct* cleaned records that both
lack usable email and phone do not each appear as their own entity: these
two differ only in `notes`, share an `exact_sig`, and the guard drops the
second before it can receive a synthetic key — one entity remains. -/
theorem C5_counterexample :
    (([noIdRaw1, noIdRaw2].filterMap (cleanRecord nowStamp)).length = 2) ∧
      (([noIdRaw1, noIdRaw2].filterMap (cleanRecord nowStamp)).getD 0 defaultRec ≠
        ([noIdRaw1, noIdRaw2].filterMap (cleanRecord nowStamp)).getD 1 defaultRec) ∧
      (∀ r ∈ [noIdRaw1, noIdRaw2].filterMap (cleanRecord nowStamp),
        pyStrip (pyLower r.email) = "" ∧ normalize_phone r.phone = "") ∧
      (mergeLoop ([noIdRaw1, noIdRaw2].filterMap (cleanRecord nowStamp)) 0 [] []).length = 1 := by
  decide

/-- A no-identifier record named Alpha. -/
def uniqRaw1 : Rec := { company_name := "Alpha" }

/-- A no-identifier record named Beta. -/
def uniqRaw2 : Rec := { company_name := "Beta" }

/-- Witness for C5 at two concrete identifier-less records that pass the
guard. -/
theorem C5_witness :
    lookupEntry (mergeLoop ([uniqRaw1, uniqRaw2].filterMap (cleanRecord nowStamp)) 0 [] [])
        ("unique|" ++ Nat.repr 0) =
        some { company_name := "Alpha", last_seen_utc := nowStamp } ∧
      lookupEntry (mergeLoop ([uniqRaw1, uniqRaw2].filterMap (cleanRecord nowStamp)) 0 [] [])
        ("unique|" ++ Nat.repr 1) =
        some { company_name := "Beta", last_seen_utc := nowStamp } ∧
      ("unique|" ++ Nat.repr 0 : String) ≠ "unique|" ++ Nat.repr 1 :=
  C5_synthetic_keys [uniqRaw1, uniqRaw2] nowStamp
    ([uniqRaw1, uniqRaw2].filterMap (cleanRecord nowStamp)) rfl 0 1
    { company_name := "Alpha", last_seen_utc := nowStamp }
    { company_name := "Beta", last_seen_utc := nowStamp }
    (by decide) (by decide) (by decide) (by decide) (by decide) (by decide) (by decide)

/-! ### Activity-code coverage warnings (claim C2) -/

/-- CLAIM C2 (amended): when raw input exists, a control-list code is
warned about if and only if zero *cleaned* records with the chamber
source carry that code; the warning is independent of the output rows. -/
theorem C2_code_warning (codes : List String) (now : String) (raws : List Rec) (c : String)
    (hne : raws ≠ []) (hc : c ∈ codes) :
    LogWarning.codeGap c ∈ (runPipeline codes now raws).2 ↔
      chamberCount (raws.filterMap (cleanRecord now)) c = 0 := by
  unfold runPipeline
  rw [if_neg (by simpa using hne)]
  simp only [List.mem_map, List.mem_filter]
  constructor
  · rintro ⟨c', ⟨_, hcount⟩, hinj⟩
    cases hinj
    simpa using hcount
  · intro hcount
    exact ⟨c, ⟨hc, by simpa using hcount⟩, rfl⟩

/-- A raw record from the non-chamber DED source carrying code 77. -/
def rawDed77 : Rec := { company_name := "A", source := "dubai_ded", activity_code := "77" }

/-- CLAIM C2 (counterexample): code `"77"` is carried by an output row,
yet the pipeline still warns about it, because the warning counter only
counts rows whose source is the chamber source. -/
theorem C2_counterexample :
    (∃ row ∈ (runPipeline ["77"] nowStamp [rawDed77]).1.getD [], row.activity_code = "77") ∧
      LogWarning.codeGap "77" ∈ (runPipeline ["77"] nowStamp [rawDed77]).2 := by
  decide

/-- Witness for the amended C2 at the concrete DED-source record. -/
theorem C2_witness :
    LogWarning.codeGap "77" ∈ (runPipeline ["77"] nowStamp [rawDed77]).2 :=
  (C2_code_warning ["77"] nowStamp [rawDed77] "77" (by decide) (by decide)).mpr (by decide)

end DataCollector
